import Mathlib

/-!
Verification development for the CSV flashcard study tool (`src/App.tsx`).

The study-session engine of the app is shallowly embedded below:
React `useState` hooks become fields of an explicit `AppState` structure,
each event handler becomes a pure state-transformation function, and the
two sources of randomness (`Math.random()` in `shuffleArray` and the
re-insertion jitter in `markUnknown`) become explicit parameters.

JavaScript numeric semantics are modelled with exact `Nat`/`Int`/`ℚ`
arithmetic.  The two places where the source uses floating point are:
  * `Math.floor(copy.length * 0.3)` — for every queue length that can
    arise in practice (far below 2^50) the IEEE-754 double computation
    agrees exactly with `3 * len / 10` in natural-number division, which
    is how it is modelled;
  * `Math.round(idx / total * 100)` — modelled as `⌊q + 1/2⌋` over exact
    rationals, which is what `Math.round` computes on the exactly-known
    quotient (JS `Math.round` rounds half toward +∞).
-/

/-- The set `[A-E]` of the option-marker regex in `formatText`. -/
def isOptionMarker (c : Char) : Bool := 'A' ≤ c && c ≤ 'E'

/--
Character-level engine of `formatText`:
`text.replace(/([A-E]\.)\s*/g, '\n$1 ')`.
The Boolean flag is true while the scanner is consuming the `\s*` part of
a match that was just replaced; this makes the recursion structural (the
original regex scan drops the whitespace run in one step).
-/
def fmtAux : Bool → List Char → List Char
  | _, [] => []
  | skip, c :: rest =>
    if skip && c.isWhitespace then fmtAux true rest
    else
      match rest with
      | d :: rest2 =>
        if d = '.' && isOptionMarker c then
          '\n' :: c :: '.' :: ' ' :: fmtAux true rest2
        else c :: fmtAux false (d :: rest2)
      | [] => [c]

/-- `formatText` from `App.tsx` (line 17):
`text.replace(/([A-E]\.)\s*/g, '\n$1 ')`. -/
def formatText (s : String) : String := ⟨fmtAux false s.data⟩

/-- Character-level model of JavaScript `String.prototype.trim`:
drop the whitespace prefix and the whitespace suffix. -/
def trimChars (l : List Char) : List Char :=
  ((l.dropWhile Char.isWhitespace).reverse.dropWhile Char.isWhitespace).reverse

/-- JavaScript `String(x).trim()` as used by `normalizeRecords`. -/
def jsTrim (s : String) : String := ⟨trimChars s.data⟩

/-- A question/answer record (`type QA` in `App.tsx`). -/
structure QA where
  q : String
  a : String
deriving DecidableEq, Repr

/--
Universe of raw parsed rows handed to `normalizeRecords`.  In the source
the argument is `any[]`; the rows that matter are falsy values (`nullRec`),
arrays of cells, and plain objects (modelled as association lists whose
`Option` values distinguish a JS `null` value (`none`) from a string).
A key that is absent from the list models an `undefined` property.
-/
inductive RawRecord where
  | nullRec : RawRecord
  | arr (cells : List (Option String)) : RawRecord
  | obj (kvs : List (String × Option String)) : RawRecord
deriving DecidableEq

/-- `r.isArr` is true on array-form rows. -/
def RawRecord.isArr : RawRecord → Bool
  | .arr _ => true
  | _ => false

/-- JS property read `r[k]`: `none` for both an absent key (undefined) and
a `null` value, which is exactly how the `??` chains in the source treat
them. -/
def getProp (kvs : List (String × Option String)) (k : String) : Option String :=
  match kvs.find? (fun p => p.1 = k) with
  | some p => p.2
  | none => none

/-- JS `a ?? b` on our `Option` model of nullable strings. -/
def jsCoalesce (a b : Option String) : Option String :=
  match a with
  | some v => some v
  | none => b

/-- JS array destructuring read `r[n]`: out-of-range (`undefined`) and a
`null` cell both become `none`. -/
def getCell (cells : List (Option String)) (n : Nat) : Option String :=
  match cells[n]? with
  | some c => c
  | none => none

/--
Per-record body of the `for` loop of `normalizeRecords` (`App.tsx` lines
43–72); the loop's `out.push` calls become list concatenation.
-/
def normRecord : RawRecord → List QA
  | .nullRec => []                              -- `if (!r) continue;`
  | .arr cells =>                               -- `if (Array.isArray(r))`
    match getCell cells 0, getCell cells 1 with
    | some q, some a =>
      if jsTrim q ≠ "" then [⟨formatText (jsTrim q), formatText (jsTrim a)⟩] else []
    | _, _ => []
  | .obj kvs =>                                 -- `else if (typeof r === "object")`
    let q := jsCoalesce (getProp kvs "question") (jsCoalesce (getProp kvs "Question")
      (jsCoalesce (getProp kvs "Q") (getProp kvs "q")))
    let a := jsCoalesce (getProp kvs "answer") (jsCoalesce (getProp kvs "Answer")
      (jsCoalesce (getProp kvs "A") (getProp kvs "a")))
    match q, a with
    | some q, some a => [⟨formatText (jsTrim q), formatText (jsTrim a)⟩]
    | _, _ =>
      -- Fallback: take first two keys
      match kvs with
      | (_, v1) :: (_, v2) :: _ =>
        match v1, v2 with
        | some q2, some a2 =>
          if jsTrim q2 ≠ "" then [⟨formatText (jsTrim q2), formatText (jsTrim a2)⟩] else []
        | _, _ => []
      | _ => []

/-- `normalizeRecords` from `App.tsx` (lines 43–72). -/
def normalizeRecords : List RawRecord → List QA
  | [] => []
  | r :: rs => normRecord r ++ normalizeRecords rs

/--
The session-engine state of `App` (`App.tsx` lines 83–98): one field per
`useState` hook that the engine owns.  UI-only hooks (`dark`, `showList`,
`savedSets`, `currentSetTitle`, `showSavedSets`) carry no engine logic and
are omitted.
-/
structure AppState where
  rawRows : List QA       -- Deck Store: indices into it
  queue : List Nat        -- `queue`: indices into rawRows
  idx : Nat               -- `idx`: position in queue
  flipped : Bool
  known : List Nat
  unknown : List Nat
  started : Bool
  shuffle : Bool
  reverse : Bool
  autoRepeatUnknown : Bool
deriving DecidableEq, Repr

/--
`currentIndex = queue[idx] ?? -1` (`App.tsx` line 106), as an `Option`:
`none` models the `-1` sentinel (queue entries are always non-negative, so
the source's `i < 0` tests are exactly the `none` case).
-/
def currentIndex? (s : AppState) : Option Nat := s.queue[s.idx]?

/-- `next` (`App.tsx` lines 194–196). -/
def next (s : AppState) : AppState :=
  if s.idx < s.queue.length - 1 then { s with idx := s.idx + 1, flipped := false } else s

/-- `prev` (`App.tsx` lines 197–199). -/
def prev (s : AppState) : AppState :=
  if 0 < s.idx then { s with idx := s.idx - 1, flipped := false } else s

/-- The Space-key handler body `setFlipped(f => !f)`. -/
def toggleFlip (s : AppState) : AppState := { s with flipped := !s.flipped }

/-- `startSession` (`App.tsx` line 192). -/
def startSession (s : AppState) : AppState := { s with started := true }

/-- `markKnown` (`App.tsx` lines 201–209).  `next` is invoked after the
set updates; it reads the same render snapshot's `queue`, which
`markKnown` never changes. -/
def markKnown (s : AppState) : AppState :=
  match currentIndex? s with
  | none => s                                   -- `if (i < 0) return;`
  | some i =>
    let known' := if i ∈ s.known then s.known else s.known ++ [i]
    let unknown' := if s.autoRepeatUnknown then s.unknown.filter (fun x => x ≠ i) else s.unknown
    next { s with known := known', unknown := unknown' }

/-- `copy.splice(insertAt, 0, i)`: JS splice clamps an index past the end
to an append, which `take`/`drop` reproduce. -/
def spliceInsert (n : Nat) (a : Nat) (l : List Nat) : List Nat :=
  l.take n ++ a :: l.drop n

/--
`markUnknown` (`App.tsx` lines 210–225), with the random jitter
`Math.floor(Math.random()*5)` passed in as `jitter` (an outcome in
`0..4`).  `Math.floor(copy.length * 0.3)` is `3 * length / 10` exactly.
The closing `next()` call reads the render-snapshot `queue`, i.e. the
queue *before* the functional `setQueue` insertion, so the advance test
uses the pre-insertion length; the updated queue is installed afterwards.
-/
def markUnknown (jitter : Nat) (s : AppState) : AppState :=
  match currentIndex? s with
  | none => s                                   -- `if (i < 0) return;`
  | some i =>
    let unknown' := if i ∈ s.unknown then s.unknown else s.unknown ++ [i]
    let queue' :=
      if s.autoRepeatUnknown then
        let minGap := max 10 (3 * s.queue.length / 10)
        let insertAt := min s.queue.length (s.idx + minGap + jitter)
        spliceInsert insertAt i s.queue
      else s.queue
    { next { s with unknown := unknown' } with queue := queue' }

/-- One swap `[a[i], a[j]] = [a[j], a[i]]` on the list model (right-hand
side read first, as destructuring assignment does). -/
def swapL (l : List Nat) (i j : Nat) : List Nat :=
  (l.set i (l.getD j 0)).set j (l.getD i 0)

/-- The `for (let i = a.length - 1; i > 0; i--)` loop of `shuffleArray`:
`fyLoop rand i a` performs the swaps for loop indices `i, i-1, ..., 1`,
where `rand i` is the outcome of `Math.floor(Math.random() * (i + 1))`. -/
def fyLoop (rand : Nat → Nat) : Nat → List Nat → List Nat
  | 0, a => a
  | i + 1, a => fyLoop rand i (swapL a (i + 1) (rand (i + 1)))

/-- `shuffleArray` (`App.tsx` lines 163–170), specialised to the `Nat`
lists it is applied to. -/
def shuffleArray (rand : Nat → Nat) (arr : List Nat) : List Nat :=
  fyLoop rand (arr.length - 1) arr

/-- `resetSession` (`App.tsx` lines 152–161). -/
def resetSession (n : Nat) (rand : Nat → Nat) (s : AppState) : AppState :=
  let base := List.range n
  let q := if s.shuffle then shuffleArray rand base else base
  { s with queue := q, idx := 0, flipped := false, known := [], unknown := [],
           started := false }

/--
`onKey` (`App.tsx` lines 178–185) restricted to `e.key` (the `e.code ===
"Space"` alternative fires on the same physical key as `" "`).  The guard
clauses test distinct key strings, so at most one branch fires per event
and sequential composition coincides with the source's reads of one
render snapshot.  This is the *fresh-closure* dispatch — the handler and
the state it reads belong to the same render; the memoized listener that
is actually registered, whose `known`/`unknown`/`autoRepeatUnknown` reads
can be stale, is modelled separately by `onKeyListener`/`runKeys` below,
and coincides with `onKey` exactly when snapshot and live state agree.
-/
def onKey (key : String) (jitter : Nat) (s : AppState) : AppState :=
  if s.started = false then s                   -- `if (!started) return;`
  else
    let s1 := if key = " " then toggleFlip s else s
    let s2 := if key = "ArrowRight" then next s1 else s1
    let s3 := if key = "ArrowLeft" then prev s2 else s2
    let s4 := if key = "1" then markKnown s3 else s3
    if key = "2" then markUnknown jitter s4 else s4

/-- The shuffle `Switch` of the upload card (`App.tsx` line 403):
`onCheckedChange={setShuffle}` — it only writes the flag. -/
def shuffleToggleUpload (v : Bool) (s : AppState) : AppState :=
  { s with shuffle := v }

/--
The shuffle `Switch` of the session-options panel (`App.tsx` line 549):
`(v)=>{setShuffle(v); resetSession(rawRows.length);}`.  `resetSession`
executes in the same render closure, so the `shuffle` it branches on is
still the *pre-toggle* value; only afterwards does the flag read `v`.
-/
def shuffleToggleSession (v : Bool) (rand : Nat → Nat) (s : AppState) : AppState :=
  { resetSession s.rawRows.length rand s with shuffle := v }

/-- The repeat-unknown `Switch` handlers (`App.tsx` lines 410 and 550):
only the flag changes. -/
def setRepeatUnknown (v : Bool) (s : AppState) : AppState :=
  { s with autoRepeatUnknown := v }

/-- The reverse (`Q/A 뒤집기`) `Switch` handlers (`App.tsx` lines 417 and
551): only the flag changes. -/
def setReverse (v : Bool) (s : AppState) : AppState :=
  { s with reverse := v }

/-- `progress` (`App.tsx` line 108):
`total ? Math.round(((idx) / total) * 100) : 0`, with `Math.round x`
modelled exactly as `⌊x + 1/2⌋`. -/
def progress (s : AppState) : Int :=
  if s.queue.length = 0 then 0
  else ⌊(s.idx : ℚ) / (s.queue.length : ℚ) * 100 + 1 / 2⌋

/-- The persisted shape of one question (`StudySet.questions` element in
`lib/supabase.ts`). -/
structure QP where
  question : String
  answer : String
deriving DecidableEq

/-- The persisted shape of a study set (`StudySet` in `lib/supabase.ts`),
restricted to the fields the save/load paths construct. -/
structure StudySetM where
  title : String
  questions : List QP
deriving DecidableEq

/-- The record mapping of `saveStudySet` (`App.tsx` lines 247–253): the
study set inserted into the remote store. -/
def saveStudySet (title : String) (rows : List QA) : StudySetM :=
  { title := title, questions := rows.map (fun r => ⟨r.q, r.a⟩) }

/-- The record mapping of `loadStudySet` (`App.tsx` lines 278–282): the
rows installed as the new Deck Store (the load path re-applies
`formatText` to each stored field). -/
def loadStudySet (set : StudySetM) : List QA :=
  set.questions.map (fun p => ⟨formatText p.question, formatText p.answer⟩)

/-- The session-engine operations, with every random outcome made
explicit, for reasoning about arbitrary operation sequences. -/
inductive Op where
  | nextO | prevO | flipO | markKnownO | startO
  | markUnknownO (jitter : Nat)
  | resetO (n : Nat) (rand : Nat → Nat)
  | onKeyO (key : String) (jitter : Nat)
  | shuffleUploadO (v : Bool)
  | shuffleSessionO (v : Bool) (rand : Nat → Nat)
  | setRepeatO (v : Bool)
  | setReverseO (v : Bool)

/-- Dispatch one operation. -/
def step : Op → AppState → AppState
  | .nextO, s => next s
  | .prevO, s => prev s
  | .flipO, s => toggleFlip s
  | .markKnownO, s => markKnown s
  | .startO, s => startSession s
  | .markUnknownO j, s => markUnknown j s
  | .resetO n rand, s => resetSession n rand s
  | .onKeyO k j, s => onKey k j s
  | .shuffleUploadO v, s => shuffleToggleUpload v s
  | .shuffleSessionO v rand, s => shuffleToggleSession v rand s
  | .setRepeatO v, s => setRepeatUnknown v s
  | .setReverseO v, s => setReverse v s

/-- Run a sequence of operations left to right. -/
def run (ops : List Op) (s : AppState) : AppState :=
  ops.foldl (fun st op => step op st) s

/-- Both classification sets are duplicate-free. -/
def NodupSets (s : AppState) : Prop := s.known.Nodup ∧ s.unknown.Nodup

/-- A neutral engine state (empty deck, default toggle values of the
hooks: `shuffle = true`, `autoRepeatUnknown = true`, `reverse = false`). -/
def baseState : AppState :=
  { rawRows := [], queue := [], idx := 0, flipped := false, known := [], unknown := [],
    started := false, shuffle := true, reverse := false, autoRepeatUnknown := true }

/-- A session over a 20-card deck at its first card. -/
def stC1 : AppState := { baseState with queue := List.range 20, idx := 0, started := true }

/-- A mid-queue session state used to exercise both navigation moves. -/
def stC3 : AppState :=
  { baseState with queue := [0, 1, 2], idx := 1, flipped := true, started := true }

/-- A 256-card queue positioned on its last card. -/
def stC4 : AppState := { baseState with queue := List.replicate 256 0, idx := 255 }

/-- A two-card queue positioned on its second card. -/
def stC4w : AppState := { baseState with queue := [0, 1], idx := 1 }

/-- A not-yet-started session with two cards. -/
def stC5 : AppState := { baseState with queue := [0, 1], idx := 0, started := false }

/-- A session whose current card 3 is pending in `Unknown`. -/
def stC6 : AppState :=
  { baseState with queue := [3, 7], idx := 0, unknown := [3], started := true }

/-- A base state with shuffling disabled. -/
def stScn : AppState := { baseState with shuffle := false }

/-- A running unshuffled session over a three-record deck. -/
def stC8 : AppState :=
  { baseState with
    rawRows := [⟨"q1", "a1"⟩, ⟨"q2", "a2"⟩, ⟨"q3", "a3"⟩],
    queue := [0, 1, 2], shuffle := false, started := true }

/-- A random source that always picks position 0. -/
def rand0 : Nat → Nat := fun _ => 0

/-- An object row whose question is blank after trimming. -/
def rec9 : RawRecord := .obj [("question", some " "), ("answer", some "x")]

/-- `next()` as called from the registered keydown listener: the guard
reads the captured render snapshot `snap`, the functional `setIdx(i =>
i + 1)` applies to the live state. -/
def nextListener (snap live : AppState) : AppState :=
  if snap.idx < snap.queue.length - 1 then { live with idx := live.idx + 1, flipped := false }
  else live

/-- `prev()` as called from the registered keydown listener. -/
def prevListener (snap live : AppState) : AppState :=
  if 0 < snap.idx then { live with idx := live.idx - 1, flipped := false }
  else live

/-- `markKnown()` as called from the registered keydown listener:
`currentIndex`, the `!known.includes(i)` guard, `autoRepeatUnknown` and
the `next()` bound test are all reads of the captured snapshot `snap`,
while the functional updates `setKnown(k => [...k, i])` and
`setUnknown(u => u.filter(...))` append to / filter the live lists. -/
def markKnownListener (snap live : AppState) : AppState :=
  match currentIndex? snap with
  | none => live
  | some i =>
    let known' := if i ∈ snap.known then live.known else live.known ++ [i]
    let unknown' := if snap.autoRepeatUnknown then live.unknown.filter (fun x => x ≠ i)
      else live.unknown
    if snap.idx < snap.queue.length - 1 then
      { live with known := known', unknown := unknown', idx := live.idx + 1, flipped := false }
    else
      { live with known := known', unknown := unknown' }

/-- `markUnknown()` as called from the registered keydown listener:
guards read the snapshot; the functional `setUnknown`/`setQueue` updaters
receive the live lists (so `copy.length` is the live queue length while
`idx` is the snapshot cursor, exactly as in the source closure). -/
def markUnknownListener (jitter : Nat) (snap live : AppState) : AppState :=
  match currentIndex? snap with
  | none => live
  | some i =>
    let unknown' := if i ∈ snap.unknown then live.unknown else live.unknown ++ [i]
    let queue' :=
      if snap.autoRepeatUnknown then
        let minGap := max 10 (3 * live.queue.length / 10)
        let insertAt := min live.queue.length (snap.idx + minGap + jitter)
        spliceInsert insertAt i live.queue
      else live.queue
    if snap.idx < snap.queue.length - 1 then
      { live with unknown := unknown', queue := queue', idx := live.idx + 1, flipped := false }
    else
      { live with unknown := unknown', queue := queue' }

/--
The keydown listener as actually registered.  `onKey` is memoized with
`useCallback(..., [started, idx, queue])` (`App.tsx` line 185) and the
`window` listener is re-attached only when that memoized identity changes
(lines 187–190), so the registered closure's `started`/`idx`/`queue`
reads always match the live state, but its `known`, `unknown` and
`autoRepeatUnknown` reads are the values captured at the last
(re-)registration — stale whenever only those fields changed since.
`snap` is that captured render snapshot, `live` the current state that
the stable `setState` functions update.  `onKey` below coincides with the
`snap = live` instance (fresh closure); see the `..._fresh` lemmas.
-/
def onKeyListener (key : String) (jitter : Nat) (snap live : AppState) : AppState :=
  if snap.started = false then live              -- `if (!started) return;`
  else
    let s1 := if key = " " then { live with flipped := !live.flipped } else live
    let s2 := if key = "ArrowRight" then nextListener snap s1 else s1
    let s3 := if key = "ArrowLeft" then prevListener snap s2 else s2
    let s4 := if key = "1" then markKnownListener snap s3 else s3
    if key = "2" then markUnknownListener jitter snap s4 else s4

/-- Live state plus the snapshot captured by the currently registered
keydown listener. -/
structure ListenerState where
  live : AppState
  snap : AppState

/--
One keydown event followed by the re-render / `useEffect` cycle: the
event is handled by the registered closure (`onKeyListener` on the stored
snapshot), then `useCallback` compares the new `[started, idx, queue]`
against those captured in the current closure and the listener is
re-registered — the snapshot refreshed — only when one of them changed.
-/
def keyStep (ev : String × Nat) (ls : ListenerState) : ListenerState :=
  let l := onKeyListener ev.1 ev.2 ls.snap ls.live
  if l.started = ls.snap.started ∧ l.idx = ls.snap.idx ∧ l.queue = ls.snap.queue
  then { live := l, snap := ls.snap }
  else { live := l, snap := l }

/-- A sequence of keydown events processed left to right through the
memoized-listener cycle. -/
def runKeys (events : List (String × Nat)) (ls : ListenerState) : ListenerState :=
  events.foldl (fun st ev => keyStep ev st) ls

/-- A running session positioned on the last card of a two-card queue
(where `markKnown` changes neither the cursor nor the queue). -/
def stC7 : AppState := { baseState with queue := [0, 1], idx := 1, started := true }

@[simp] lemma next_known (s : AppState) : (next s).known = s.known := by
  unfold next; split <;> rfl

@[simp] lemma next_unknown (s : AppState) : (next s).unknown = s.unknown := by
  unfold next; split <;> rfl

@[simp] lemma next_queue (s : AppState) : (next s).queue = s.queue := by
  unfold next; split <;> rfl

@[simp] lemma prev_known (s : AppState) : (prev s).known = s.known := by
  unfold prev; split <;> rfl

@[simp] lemma prev_unknown (s : AppState) : (prev s).unknown = s.unknown := by
  unfold prev; split <;> rfl

@[simp] lemma prev_queue (s : AppState) : (prev s).queue = s.queue := by
  unfold prev; split <;> rfl

lemma getD_set_perm (xs : List Nat) (k : Nat) (x : Nat) (hk : k < xs.length) :
    List.Perm (xs.getD k 0 :: xs.set k x) (x :: xs) := by
  induction xs generalizing k with
  | nil => simp at hk
  | cons y ys ih =>
    cases k with
    | zero => simpa using List.Perm.swap x y ys
    | succ k =>
      have hk' : k < ys.length := by simpa using hk
      have h1 : List.Perm (ys.getD k 0 :: y :: ys.set k x) (y :: ys.getD k 0 :: ys.set k x) :=
        List.Perm.swap y (ys.getD k 0) (ys.set k x)
      have h2 : List.Perm (y :: ys.getD k 0 :: ys.set k x) (y :: x :: ys) :=
        List.Perm.cons y (ih k hk')
      have h3 : List.Perm (y :: x :: ys) (x :: y :: ys) := List.Perm.swap x y ys
      simpa using (h1.trans h2).trans h3

lemma swapL_perm (l : List Nat) (i j : Nat) (hi : i < l.length) (hj : j < l.length) :
    List.Perm (swapL l i j) l := by
  induction l generalizing i j with
  | nil => simp at hi
  | cons y ys ih =>
    cases i with
    | zero =>
      cases j with
      | zero => simp [swapL]
      | succ k =>
        have hk : k < ys.length := by simpa using hj
        simpa [swapL] using getD_set_perm ys k y hk
    | succ m =>
      cases j with
      | zero =>
        have hm : m < ys.length := by simpa using hi
        simpa [swapL] using getD_set_perm ys m y hm
      | succ k =>
        have hm : m < ys.length := by simpa using hi
        have hk : k < ys.length := by simpa using hj
        simpa [swapL] using List.Perm.cons y (ih m k hm hk)

@[simp] lemma swapL_length (l : List Nat) (i j : Nat) : (swapL l i j).length = l.length := by
  simp [swapL]

lemma fyLoop_perm (rand : Nat → Nat) (hr : ∀ k, rand k ≤ k) :
    ∀ (i : Nat) (a : List Nat), i < a.length → List.Perm (fyLoop rand i a) a := by
  intro i
  induction i with
  | zero => intro a _; exact List.Perm.refl a
  | succ i ih =>
    intro a hia
    have hj : rand (i + 1) < a.length := Nat.lt_of_le_of_lt (hr (i + 1)) hia
    have h1 : List.Perm (swapL a (i + 1) (rand (i + 1))) a := swapL_perm a _ _ hia hj
    have h2 : List.Perm (fyLoop rand i (swapL a (i + 1) (rand (i + 1))))
        (swapL a (i + 1) (rand (i + 1))) := by
      apply ih
      simpa using Nat.lt_of_succ_lt hia
    exact h2.trans h1

lemma shuffleArray_perm (rand : Nat → Nat) (hr : ∀ k, rand k ≤ k) (arr : List Nat) :
    List.Perm (shuffleArray rand arr) arr := by
  cases arr with
  | nil => exact List.Perm.refl _
  | cons y ys =>
    apply fyLoop_perm rand hr
    simp

lemma nodup_append_singleton {l : List Nat} {i : Nat} (h : l.Nodup) (hi : i ∉ l) :
    (l ++ [i]).Nodup := by
  rw [List.nodup_append]
  refine ⟨h, List.nodup_singleton i, ?_⟩
  intro a ha hb
  have : a = i := by simpa using hb
  exact hi (this ▸ ha)

lemma mem_dropWhile_of_mem {p : Char → Bool} {c : Char} {l : List Char}
    (hc : c ∈ l) (hpc : p c = false) : c ∈ l.dropWhile p := by
  induction l with
  | nil => simp at hc
  | cons x xs ih =>
    rw [List.dropWhile_cons]
    by_cases hx : p x = true
    · rw [if_pos hx]
      rcases List.mem_cons.mp hc with rfl | h
      · rw [hpc] at hx; cases hx
      · exact ih h
    · rw [if_neg hx]
      exact hc

lemma mem_trimChars_of_nonws {l : List Char} {c : Char}
    (hc : c ∈ l) (hw : c.isWhitespace = false) : c ∈ trimChars l := by
  unfold trimChars
  apply List.mem_reverse.mpr
  apply mem_dropWhile_of_mem _ hw
  apply List.mem_reverse.mpr
  exact mem_dropWhile_of_mem hc hw

lemma trimChars_ne_nil_of_nonws {l : List Char} {c : Char}
    (hc : c ∈ l) (hw : c.isWhitespace = false) : trimChars l ≠ [] := by
  intro h
  have := mem_trimChars_of_nonws hc hw
  rw [h] at this
  simp at this

lemma exists_nonws_of_trimChars_ne_nil {l : List Char} (h : trimChars l ≠ []) :
    ∃ c ∈ l, c.isWhitespace = false := by
  by_contra hall
  push_neg at hall
  apply h
  unfold trimChars
  have h1 : l.dropWhile Char.isWhitespace = [] := by
    rw [List.dropWhile_eq_nil_iff]
    intro x hx
    have := hall x hx
    simpa using this
  rw [h1]
  simp

lemma fmtAux_nonws :
    ∀ (l : List Char) (skip : Bool), (∃ c ∈ l, c.isWhitespace = false) →
      ∃ c ∈ fmtAux skip l, c.isWhitespace = false := by
  intro l
  induction l with
  | nil =>
    intro skip h
    simp at h
  | cons c rest ih =>
    intro skip h
    by_cases hsk : (skip && c.isWhitespace) = true
    · have hout : fmtAux skip (c :: rest) = fmtAux true rest := by
        rw [fmtAux.eq_def]
        simp [hsk]
      rw [hout]
      apply ih true
      rcases h with ⟨x, hx, hxw⟩
      rcases List.mem_cons.mp hx with rfl | hx'
      · have hcw : x.isWhitespace = true := by
          have := hsk
          simp only [Bool.and_eq_true] at this
          exact this.2
        rw [hcw] at hxw
        cases hxw
      · exact ⟨x, hx', hxw⟩
    · cases rest with
      | nil =>
        have hout : fmtAux skip [c] = [c] := by
          rw [fmtAux.eq_def]
          simp [hsk]
        rw [hout]
        rcases h with ⟨x, hx, hxw⟩
        simp at hx
        exact ⟨x, by simp [hx], hxw⟩
      | cons d rest2 =>
        by_cases hm : (d = '.' && isOptionMarker c) = true
        · have hout : fmtAux skip (c :: d :: rest2) =
              '\n' :: c :: '.' :: ' ' :: fmtAux true rest2 := by
            rw [fmtAux]
            simp [hsk, hm]
          rw [hout]
          exact ⟨'.', by simp, by decide⟩
        · have hout : fmtAux skip (c :: d :: rest2) = c :: fmtAux false (d :: rest2) := by
            rw [fmtAux.eq_def]
            simp [hsk, hm]
          rw [hout]
          rcases h with ⟨x, hx, hxw⟩
          rcases List.mem_cons.mp hx with rfl | hx'
          · exact ⟨x, by simp, hxw⟩
          · rcases ih false ⟨x, hx', hxw⟩ with ⟨y, hy, hyw⟩
            exact ⟨y, by simp [hy], hyw⟩

lemma jsTrim_formatText_ne_empty {t : String} (h : jsTrim t ≠ "") :
    jsTrim (formatText (jsTrim t)) ≠ "" := by
  have h0 : trimChars t.data ≠ [] := by
    intro hh
    apply h
    unfold jsTrim
    rw [hh]
  rcases exists_nonws_of_trimChars_ne_nil h0 with ⟨c, hc, hw⟩
  have h1 : c ∈ trimChars t.data := mem_trimChars_of_nonws hc hw
  have h2 : ∃ x ∈ fmtAux false (trimChars t.data), x.isWhitespace = false :=
    fmtAux_nonws _ false ⟨c, h1, hw⟩
  rcases h2 with ⟨x, hx, hxw⟩
  intro hcon
  have h3 : trimChars (fmtAux false (trimChars t.data)) = [] := by
    have : (jsTrim (formatText (jsTrim t))).data = trimChars (fmtAux false (trimChars t.data)) := rfl
    rw [hcon] at this
    exact this.symm
  exact trimChars_ne_nil_of_nonws hx hxw h3

lemma map_eq_self_iff_qa (f : QA → QA) (l : List QA) :
    l.map f = l ↔ ∀ x ∈ l, f x = x := by
  induction l with
  | nil => simp
  | cons x xs ih =>
    simp only [List.map_cons, List.cons.injEq, List.mem_cons]
    constructor
    · rintro ⟨h1, h2⟩ y hy
      rcases hy with rfl | hy
      · exact h1
      · exact (ih.mp h2) y hy
    · intro h
      exact ⟨h x (Or.inl rfl), ih.mpr fun y hy => h y (Or.inr hy)⟩

lemma next_preserves_nodup (s : AppState) (h : NodupSets s) : NodupSets (next s) := by
  unfold NodupSets at *
  simp [h.1, h.2]

lemma prev_preserves_nodup (s : AppState) (h : NodupSets s) : NodupSets (prev s) := by
  unfold NodupSets at *
  simp [h.1, h.2]

lemma toggleFlip_preserves_nodup (s : AppState) (h : NodupSets s) : NodupSets (toggleFlip s) := h

lemma startSession_preserves_nodup (s : AppState) (h : NodupSets s) :
    NodupSets (startSession s) := h

lemma markKnown_preserves_nodup (s : AppState) (h : NodupSets s) : NodupSets (markKnown s) := by
  unfold markKnown
  cases hc : currentIndex? s with
  | none => exact h
  | some i =>
    constructor
    · simp only [next_known]
      by_cases hi : i ∈ s.known
      · simpa [hi] using h.1
      · simpa [hi] using nodup_append_singleton h.1 hi
    · simp only [next_unknown]
      by_cases hr : s.autoRepeatUnknown
      · simpa [hr] using List.Nodup.filter _ h.2
      · simpa [hr] using h.2

lemma markUnknown_preserves_nodup (jitter : Nat) (s : AppState) (h : NodupSets s) :
    NodupSets (markUnknown jitter s) := by
  unfold markUnknown
  cases hc : currentIndex? s with
  | none => exact h
  | some i =>
    constructor
    · simpa using h.1
    · simp only [next_unknown]
      by_cases hi : i ∈ s.unknown
      · simpa [hi] using h.2
      · simpa [hi] using nodup_append_singleton h.2 hi

lemma resetSession_nodup (n : Nat) (rand : Nat → Nat) (s : AppState) :
    NodupSets (resetSession n rand s) := by
  unfold NodupSets resetSession
  simp

lemma ite_preserves_nodup {c : Prop} [Decidable c] {f : AppState → AppState}
    (hf : ∀ s, NodupSets s → NodupSets (f s)) (s : AppState) (h : NodupSets s) :
    NodupSets (if c then f s else s) := by
  split
  · exact hf s h
  · exact h

lemma onKey_preserves_nodup (key : String) (jitter : Nat) (s : AppState) (h : NodupSets s) :
    NodupSets (onKey key jitter s) := by
  unfold onKey
  split
  · exact h
  · apply ite_preserves_nodup (markUnknown_preserves_nodup jitter)
    apply ite_preserves_nodup markKnown_preserves_nodup
    apply ite_preserves_nodup prev_preserves_nodup
    apply ite_preserves_nodup next_preserves_nodup
    apply ite_preserves_nodup toggleFlip_preserves_nodup
    exact h

lemma step_preserves_nodup (op : Op) (s : AppState) (h : NodupSets s) :
    NodupSets (step op s) := by
  cases op with
  | nextO => exact next_preserves_nodup s h
  | prevO => exact prev_preserves_nodup s h
  | flipO => exact h
  | markKnownO => exact markKnown_preserves_nodup s h
  | startO => exact h
  | markUnknownO j => exact markUnknown_preserves_nodup j s h
  | resetO n rand => exact resetSession_nodup n rand s
  | onKeyO k j => exact onKey_preserves_nodup k j s h
  | shuffleUploadO v => exact h
  | shuffleSessionO v rand =>
    have := resetSession_nodup s.rawRows.length rand s
    exact this
  | setRepeatO v => exact h
  | setReverseO v => exact h

lemma run_preserves_nodup (ops : List Op) :
    ∀ s : AppState, NodupSets s → NodupSets (run ops s) := by
  induction ops with
  | nil => intro s h; exact h
  | cons op ops ih =>
    intro s h
    exact ih (step op s) (step_preserves_nodup op s h)

lemma nextListener_fresh (s : AppState) : nextListener s s = next s := rfl

lemma prevListener_fresh (s : AppState) : prevListener s s = prev s := rfl

lemma markKnownListener_fresh (s : AppState) : markKnownListener s s = markKnown s := by
  unfold markKnownListener markKnown
  cases hc : currentIndex? s with
  | none => rfl
  | some i =>
    dsimp only
    unfold next
    rfl

lemma update_queue_next (t : AppState) (q : List Nat) :
    { next t with queue := q } = if t.idx < t.queue.length - 1 then
      { t with idx := t.idx + 1, flipped := false, queue := q }
    else { t with queue := q } := by
  unfold next
  split <;> rfl

lemma markUnknownListener_fresh (j : Nat) (s : AppState) :
    markUnknownListener j s s = markUnknown j s := by
  unfold markUnknownListener markUnknown
  cases hc : currentIndex? s with
  | none => rfl
  | some i =>
    dsimp only
    rw [update_queue_next]

lemma onKeyListener_fresh (key : String) (jitter : Nat) (s : AppState) :
    onKeyListener key jitter s s = onKey key jitter s := by
  unfold onKeyListener onKey
  by_cases hst : s.started = false
  · simp [hst]
  · simp only [if_neg hst]
    by_cases h1 : key = " " <;> by_cases h2 : key = "ArrowRight" <;>
        by_cases h3 : key = "ArrowLeft" <;> by_cases h4 : key = "1" <;>
        by_cases h5 : key = "2" <;>
      simp_all [nextListener_fresh, prevListener_fresh, markKnownListener_fresh,
        markUnknownListener_fresh, toggleFlip]

/--
At the level of the direct session-engine operations — each applied to
the state it reads — `Known` and `Unknown` stay duplicate-free from any
reset state: every insertion is guarded by a membership test and
`markKnown` only filters `unknown`.  The program-level uniqueness claim
nevertheless fails through the *memoized* keydown listener, whose stale
`known`/`unknown` snapshot defeats those guards (modelled by `runKeys`;
see the stale-listener duplication theorem in the claims section).
-/
theorem classification_sets_nodup (s : AppState) (n : Nat) (rand : Nat → Nat)
    (ops : List Op) :
    (run ops (resetSession n rand s)).known.Nodup ∧
      (run ops (resetSession n rand s)).unknown.Nodup :=
  run_preserves_nodup ops _ (resetSession_nodup n rand s)

/--
C7 (code bug evaluated at the failing input): with the session on the
last card (`stC7`: queue `[0, 1]`, cursor 1, `Known` empty), pressing
`"1"` twice through the registered keydown listener duplicates the
entry.  `markKnown` changes neither `idx` nor `queue` there, so the
memoized listener is not re-registered between the presses; its stale
`known` snapshot lets the `!known.includes(i)` guard pass a second time
while the functional `setKnown(k => [...k, i])` appends to the latest
list, yielding `known = [1, 1]` — not duplicate-free.  The direct engine
operation applied twice keeps `known = [1]`, the behaviour the claim and
the source's own membership guard intend.
-/
theorem markKnown_stale_listener_duplicate :
    (runKeys [("1", 0), ("1", 0)] { live := stC7, snap := stC7 }).live.known = [1, 1]
    ∧ ¬ ((runKeys [("1", 0), ("1", 0)] { live := stC7, snap := stC7 }).live.known.Nodup)
    ∧ (markKnown (markKnown stC7)).known = [1] := by
  refine ⟨by decide, by decide, by decide⟩

/--
C3: `next()` increments the cursor and clears the flip state exactly when
`cursor < |Queue| - 1` and otherwise changes nothing; `prev()` decrements
the cursor and clears the flip state exactly when `cursor > 0` and
otherwise changes nothing.  A no-op navigation leaves the whole state —
including `flipped` — untouched.
-/
theorem navigation_bounds (s : AppState) :
    (s.idx < s.queue.length - 1 → next s = { s with idx := s.idx + 1, flipped := false })
    ∧ (¬ s.idx < s.queue.length - 1 → next s = s)
    ∧ (0 < s.idx → prev s = { s with idx := s.idx - 1, flipped := false })
    ∧ (¬ 0 < s.idx → prev s = s) := by
  refine ⟨?_, ?_, ?_, ?_⟩ <;> intro h <;> simp [next, prev, h]

/-- Concrete instance of the navigation bounds at `stC3` (cursor 1 of 3):
both moves succeed and clear the flip state. -/
theorem navigation_bounds_witness :
    next stC3 = { stC3 with idx := stC3.idx + 1, flipped := false }
    ∧ prev stC3 = { stC3 with idx := stC3.idx - 1, flipped := false } :=
  ⟨(navigation_bounds stC3).1 (by decide), (navigation_bounds stC3).2.2.1 (by decide)⟩

/--
C5 counterexample: in the not-yet-started state `stC5` the raw `next()`
operation does move the cursor — only the keyboard dispatcher checks
`started`, the operations themselves are unguarded.
-/
theorem started_guard_counterexample :
    stC5.started = false ∧ (next stC5).idx ≠ stC5.idx := by decide

/--
C5 (amended): while `started` is false every keyboard-driven trigger is a
no-op — the `onKey` handler returns before dispatching, leaving the whole
state unchanged.  (The raw operations are not themselves guarded; the UI
merely does not render their buttons before start.)
-/
theorem onKey_inert_when_not_started (key : String) (jitter : Nat) (s : AppState)
    (h : s.started = false) : onKey key jitter s = s := by
  unfold onKey
  simp [h]

/-- Concrete instance: an ArrowRight key event before start changes
nothing. -/
theorem onKey_inert_when_not_started_witness : onKey "ArrowRight" 0 stC5 = stC5 :=
  onKey_inert_when_not_started "ArrowRight" 0 stC5 rfl

/--
C2: for every `n` and every outcome of the random source (each draw
`rand i` of `Math.floor(Math.random()*(i+1))` lies in `0..i`),
`resetSession n` produces a queue that is a permutation of `0..n-1`
containing each index exactly once — the identity sequence when
`shuffleEnabled` is false — and sets cursor 0, `flipped = false`, empty
classification sets, and `started = false`.
-/
theorem resetSession_builds_permutation (n : Nat) (rand : Nat → Nat) (s : AppState)
    (hr : ∀ i, rand i ≤ i) :
    List.Perm (resetSession n rand s).queue (List.range n)
    ∧ (∀ k : Nat, (resetSession n rand s).queue.count k = if k < n then 1 else 0)
    ∧ (s.shuffle = false → (resetSession n rand s).queue = List.range n)
    ∧ (resetSession n rand s).idx = 0
    ∧ (resetSession n rand s).flipped = false
    ∧ (resetSession n rand s).known = []
    ∧ (resetSession n rand s).unknown = []
    ∧ (resetSession n rand s).started = false := by
  have hq : List.Perm (resetSession n rand s).queue (List.range n) := by
    unfold resetSession
    by_cases hs : s.shuffle
    · simpa [hs] using shuffleArray_perm rand hr (List.range n)
    · simp [hs]
  refine ⟨hq, ?_, ?_, rfl, rfl, rfl, rfl, rfl⟩
  · intro k
    rw [hq.count_eq]
    by_cases hk : k < n
    · rw [if_pos hk]
      exact List.count_eq_one_of_mem (List.nodup_range n) (List.mem_range.mpr hk)
    · rw [if_neg hk]
      rw [List.count_eq_zero]
      simpa using hk
  · intro hs
    unfold resetSession
    simp [hs]

/-- Concrete instance of the reset guarantee for a shuffled three-card
deck under the always-pick-0 random source. -/
theorem resetSession_builds_permutation_witness :
    List.Perm (resetSession 3 rand0 baseState).queue (List.range 3)
    ∧ (resetSession 3 rand0 baseState).idx = 0 :=
  ⟨(resetSession_builds_permutation 3 rand0 baseState (fun i => Nat.zero_le i)).1,
   (resetSession_builds_permutation 3 rand0 baseState (fun i => Nat.zero_le i)).2.2.2.1⟩

set_option maxRecDepth 10000 in
/--
C4 counterexample: with a 256-card queue at cursor 255 (a valid current
position), `progress` already evaluates to 100:
`round(255/256*100) = round(99.609…) = 100`, so `progressPercent` is not
confined to `[0, 100)` while `cursor < |Queue|`.
-/
theorem progress_reaches_100_counterexample :
    stC4.idx < stC4.queue.length ∧ progress stC4 = 100 := by
  constructor
  · simp [stC4, baseState]
  · have hlen : stC4.queue.length = 256 := by simp [stC4, baseState]
    have hidx : stC4.idx = 255 := rfl
    unfold progress
    rw [if_neg (by omega), hlen, hidx]
    norm_num

/--
C4 (amended): `progressPercent` equals `round(cursor/|Queue|*100)` for a
non-empty queue and 0 for an empty one, and for every state with
`cursor < |Queue|` its value lies in `[0, 100]` — it can reach 100 (e.g.
cursor 255 of 256) but never exceed it.
-/
theorem progress_bounds_amended (s : AppState) :
    (s.queue.length = 0 → progress s = 0)
    ∧ (s.idx < s.queue.length → 0 ≤ progress s ∧ progress s ≤ 100) := by
  constructor
  · intro h
    simp [progress, h]
  · intro h
    have hlen : 0 < s.queue.length := Nat.lt_of_le_of_lt (Nat.zero_le _) h
    have hlen' : ¬ s.queue.length = 0 := Nat.pos_iff_ne_zero.mp hlen
    unfold progress
    rw [if_neg hlen']
    have hL : 0 < (s.queue.length : ℚ) := by exact_mod_cast hlen
    have hq : (s.idx : ℚ) / (s.queue.length : ℚ) ≤ 1 := by
      rw [div_le_one hL]
      exact_mod_cast Nat.le_of_lt h
    have hq0 : 0 ≤ (s.idx : ℚ) / (s.queue.length : ℚ) := by positivity
    constructor
    · apply Int.le_floor.mpr
      push_cast
      nlinarith
    · have hlt : (s.idx : ℚ) / (s.queue.length : ℚ) * 100 + 1 / 2 < 101 := by nlinarith
      have hfl : ⌊(s.idx : ℚ) / (s.queue.length : ℚ) * 100 + 1 / 2⌋ < 101 := by
        apply Int.floor_lt.mpr
        exact_mod_cast hlt
      omega

/-- Concrete instance of the (amended) progress bound at cursor 1 of 2. -/
theorem progress_bounds_amended_witness : 0 ≤ progress stC4w ∧ progress stC4w ≤ 100 :=
  (progress_bounds_amended stC4w).2 (by decide)

lemma spliceInsert_length (n a : Nat) (l : List Nat) :
    (spliceInsert n a l).length = l.length + 1 := by
  simp [spliceInsert]
  omega

lemma spliceInsert_getElem? (n a : Nat) (l : List Nat) (hn : n ≤ l.length) :
    (spliceInsert n a l)[n]? = some a := by
  unfold spliceInsert
  rw [List.getElem?_append_right (by simp [Nat.min_eq_left hn])]
  simp [Nat.min_eq_left hn]

/--
C1: with `repeatUnknownEnabled` on and a current card, `markUnknown`
splices one duplicate of `currentIndex` into the queue at position
`min(|Queue|, cursor + max(10, ⌊|Queue|·0.3⌋) + jitter)` (jitter an
outcome in `0..4`), growing the queue by exactly one slot; the insertion
position is computed from the pre-advance cursor and the advance test
still uses the pre-insertion length.  With `|Queue| = 20` and `cursor =
0` the duplicate lands in positions `[10, 14]` and the queue length
becomes 21.
-/
theorem markUnknown_reinserts_with_spacing (s : AppState) (jitter : Nat)
    (hrep : s.autoRepeatUnknown = true) (h : s.idx < s.queue.length) (hj : jitter < 5) :
    ((markUnknown jitter s).queue =
      spliceInsert (min s.queue.length (s.idx + max 10 (3 * s.queue.length / 10) + jitter))
        s.queue[s.idx] s.queue)
    ∧ (markUnknown jitter s).queue.length = s.queue.length + 1
    ∧ (markUnknown jitter s).queue[min s.queue.length
        (s.idx + max 10 (3 * s.queue.length / 10) + jitter)]? = some s.queue[s.idx]
    ∧ (markUnknown jitter s).idx = (if s.idx < s.queue.length - 1 then s.idx + 1 else s.idx)
    ∧ (s.queue.length = 20 → s.idx = 0 →
        10 ≤ min s.queue.length (s.idx + max 10 (3 * s.queue.length / 10) + jitter)
        ∧ min s.queue.length (s.idx + max 10 (3 * s.queue.length / 10) + jitter) ≤ 14) := by
  have hcur : currentIndex? s = some s.queue[s.idx] := List.getElem?_eq_getElem h
  have hqueue : (markUnknown jitter s).queue =
      spliceInsert (min s.queue.length (s.idx + max 10 (3 * s.queue.length / 10) + jitter))
        s.queue[s.idx] s.queue := by
    unfold markUnknown
    rw [hcur]
    simp [hrep]
  refine ⟨hqueue, ?_, ?_, ?_, ?_⟩
  · rw [hqueue, spliceInsert_length]
  · rw [hqueue, spliceInsert_getElem? _ _ _ (Nat.min_le_left _ _)]
  · have hidx : ∀ t : AppState, t.queue = s.queue → t.idx = s.idx →
        (next t).idx = (if s.idx < s.queue.length - 1 then s.idx + 1 else s.idx) := by
      intro t hq hi
      unfold next
      rw [hq, hi]
      split <;> simp [hi]
    unfold markUnknown
    rw [hcur]
    dsimp only
    exact hidx _ rfl rfl
  · intro h20 h0
    rw [h20, h0]
    omega

/-- Concrete instance of the re-insertion: 20 cards, cursor 0, jitter 2 —
the queue grows to 21 and the landing position is within `[10, 14]`. -/
theorem markUnknown_reinserts_with_spacing_witness :
    (markUnknown 2 stC1).queue.length = stC1.queue.length + 1
    ∧ 10 ≤ min stC1.queue.length (stC1.idx + max 10 (3 * stC1.queue.length / 10) + 2)
    ∧ min stC1.queue.length (stC1.idx + max 10 (3 * stC1.queue.length / 10) + 2) ≤ 14 := by
  have h := markUnknown_reinserts_with_spacing stC1 2 rfl (by decide) (by decide)
  exact ⟨h.2.1, (h.2.2.2.2 (by decide) rfl).1, (h.2.2.2.2 (by decide) rfl).2⟩

/--
C6: with a current card, `markKnown` adds `currentIndex` to `Known`, and
when `repeatUnknownEnabled` is on removes it from `Unknown`, then
advances via `next()`.  The final conjunct replays the spec scenario:
mark card 3 unknown, navigate back and forward, then mark it known with
the repeat policy on — 3 ends up in `Known` and out of `Unknown`.
-/
theorem markKnown_adds_and_cancels (s : AppState) (h : s.idx < s.queue.length) :
    s.queue[s.idx] ∈ (markKnown s).known
    ∧ (s.autoRepeatUnknown = true → s.queue[s.idx] ∉ (markKnown s).unknown)
    ∧ markKnown s = next { s with
        known := if s.queue[s.idx] ∈ s.known then s.known else s.known ++ [s.queue[s.idx]],
        unknown := if s.autoRepeatUnknown then
            s.unknown.filter (fun x => x ≠ s.queue[s.idx])
          else s.unknown }
    ∧ ((3 : Nat) ∈ (run [Op.startO, Op.nextO, Op.nextO, Op.nextO, Op.markUnknownO 0,
          Op.prevO, Op.nextO, Op.markKnownO] (resetSession 4 rand0 stScn)).known
       ∧ (3 : Nat) ∉ (run [Op.startO, Op.nextO, Op.nextO, Op.nextO, Op.markUnknownO 0,
          Op.prevO, Op.nextO, Op.markKnownO] (resetSession 4 rand0 stScn)).unknown) := by
  have hcur : currentIndex? s = some s.queue[s.idx] := List.getElem?_eq_getElem h
  have hform : markKnown s = next { s with
      known := if s.queue[s.idx] ∈ s.known then s.known else s.known ++ [s.queue[s.idx]],
      unknown := if s.autoRepeatUnknown then
          s.unknown.filter (fun x => x ≠ s.queue[s.idx])
        else s.unknown } := by
    unfold markKnown
    rw [hcur]
  refine ⟨?_, ?_, hform, by decide⟩
  · rw [hform]
    simp only [next_known]
    by_cases hk : s.queue[s.idx] ∈ s.known
    · simp [hk]
    · simp [hk]
  · intro hrep
    rw [hform]
    simp only [next_unknown]
    simp [hrep, List.mem_filter]

/-- Concrete instance: marking the current card (index 3, pending in
`Unknown`) known puts it into `Known` and removes it from `Unknown`. -/
theorem markKnown_adds_and_cancels_witness :
    stC6.queue.get ⟨stC6.idx, by decide⟩ ∈ (markKnown stC6).known
    ∧ stC6.queue.get ⟨stC6.idx, by decide⟩ ∉ (markKnown stC6).unknown := by
  have h := markKnown_adds_and_cancels stC6 (by decide)
  exact ⟨h.1, h.2.1 rfl⟩

/--
C8 (code bug evaluated at the failing input): starting from the running
unshuffled session `stC8` and switching shuffle ON, the session-options
switch does reset the session but rebuilds the queue with the *stale*
pre-toggle `shuffle = false` — the queue stays `[0, 1, 2]` for every
random outcome even though the flag now reads true (a Fisher–Yates pass
under `rand0` would give `[1, 2, 0]`); and the upload-card switch
performs no reset at all, it only writes the flag.
-/
theorem shuffleToggle_divergence :
    stC8.shuffle = false
    ∧ (∀ rand : Nat → Nat, (shuffleToggleSession true rand stC8).queue = [0, 1, 2])
    ∧ (shuffleToggleSession true rand0 stC8).shuffle = true
    ∧ shuffleArray rand0 (List.range 3) = [1, 2, 0]
    ∧ shuffleToggleUpload true stC8 = { stC8 with shuffle := true } := by
  refine ⟨rfl, fun rand => rfl, rfl, by decide, rfl⟩

lemma normalize_arr_path (rs : List RawRecord) (harr : ∀ r ∈ rs, r.isArr = true) :
    ∀ out ∈ normalizeRecords rs, jsTrim out.q ≠ "" := by
  induction rs with
  | nil =>
    intro out hout
    simp [normalizeRecords] at hout
  | cons r rs ih =>
    intro out hout
    rw [normalizeRecords] at hout
    rcases List.mem_append.mp hout with h1 | h2
    · have hr : r.isArr = true := harr r (List.mem_cons_self r rs)
      cases r with
      | nullRec => simp [RawRecord.isArr] at hr
      | obj kvs => simp [RawRecord.isArr] at hr
      | arr cells =>
        unfold normRecord at h1
        dsimp only at h1
        cases hq : getCell cells 0 with
        | none => rw [hq] at h1; simp at h1
        | some q =>
          cases ha : getCell cells 1 with
          | none => rw [hq, ha] at h1; simp at h1
          | some a =>
            rw [hq, ha] at h1
            dsimp only at h1
            by_cases hq0 : jsTrim q ≠ ""
            · rw [if_pos hq0] at h1
              have : out = ⟨formatText (jsTrim q), formatText (jsTrim a)⟩ := by
                simpa using h1
              rw [this]
              exact jsTrim_formatText_ne_empty hq0
            · rw [if_neg hq0] at h1
              simp at h1
    · exact ih (fun x hx => harr x (List.mem_cons_of_mem r hx)) out h2

/--
C9 counterexample: the object row `{question: " ", answer: "x"}` is *not*
dropped — the object path of `normalizeRecords` never tests the question
for non-emptiness — so a record whose question trims to the empty string
enters the Deck Store.
-/
theorem normalize_keeps_blank_question_counterexample :
    normalizeRecords [rec9] = [⟨"", "x"⟩]
    ∧ ¬ (∀ r ∈ normalizeRecords [rec9], jsTrim r.q ≠ "") := by
  constructor
  · decide
  · intro hall
    exact hall ⟨"", "x"⟩ (by decide) rfl

/--
C9 (amended): normalization drops falsy rows outright and drops an
array-form row whose first cell is null/undefined or trims to the empty
string, so every record produced from array-form rows has a question
whose trimmed text is non-empty.  Object-form rows are pushed without
that test (see the counterexample), and answers are never tested.
-/
theorem normalize_array_records_amended (rs : List RawRecord)
    (harr : ∀ r ∈ rs, r.isArr = true) :
    (∀ out ∈ normalizeRecords rs, jsTrim out.q ≠ "")
    ∧ normalizeRecords [RawRecord.nullRec] = []
    ∧ normalizeRecords [RawRecord.arr [some "  ", some "x"]] = [] :=
  ⟨normalize_arr_path rs harr, rfl, by decide⟩

/-- Concrete instance: the array row `["hi", ""]` is kept and its stored
question still trims to a non-empty string. -/
theorem normalize_array_records_amended_witness : jsTrim "hi" ≠ "" := by
  have h := normalize_array_records_amended [RawRecord.arr [some "hi", some ""]] (by decide)
  exact h.1 ⟨"hi", ""⟩ (by decide)

/--
C10: saving the Deck Store and loading the saved entry re-applies
`formatText` to every stored field, so the round trip yields
`{q: formatText(qᵢ), a: formatText(aᵢ)}`; it equals the original deck
exactly when every field is a fixed point of `formatText` — and
`formatText` is not idempotent on text containing option markers such as
`"A."` (each pass prepends another newline).
-/
theorem saveLoad_roundtrip :
    (∀ (title : String) (rows : List QA),
        loadStudySet (saveStudySet title rows)
          = rows.map (fun r => ⟨formatText r.q, formatText r.a⟩))
    ∧ (∀ (title : String) (rows : List QA),
        loadStudySet (saveStudySet title rows) = rows
          ↔ ∀ r ∈ rows, formatText r.q = r.q ∧ formatText r.a = r.a)
    ∧ formatText (formatText "A. foo") ≠ formatText "A. foo" := by
  have h1 : ∀ (title : String) (rows : List QA),
      loadStudySet (saveStudySet title rows)
        = rows.map (fun r => ⟨formatText r.q, formatText r.a⟩) := by
    intro title rows
    unfold loadStudySet saveStudySet
    rw [List.map_map]
    rfl
  refine ⟨h1, ?_, by decide⟩
  intro title rows
  rw [h1, map_eq_self_iff_qa]
  constructor
  · intro h r hr
    rcases r with ⟨q, a⟩
    have := h ⟨q, a⟩ hr
    simpa using this
  · intro h r hr
    rcases r with ⟨q, a⟩
    have := h ⟨q, a⟩ hr
    simpa using this

/-- Concrete instance: a deck whose fields are `formatText` fixed points
survives the save/load round trip verbatim. -/
theorem saveLoad_roundtrip_witness :
    loadStudySet (saveStudySet "t" [⟨"x", "y"⟩]) = [⟨"x", "y"⟩] :=
  (saveLoad_roundtrip.2.1 "t" [⟨"x", "y"⟩]).mpr (by decide)
